import Mathlib

/-!
Verification development for the `screenscribe` temporal alignment engine
(`src/screenscribe/align.py` together with the data model in
`src/screenscribe/models.py`).

Python floats are modelled as rationals (`ℚ`); the claims under study are
about order comparisons, stable filtering and exact count/length arithmetic,
none of which depend on binary rounding.  Python `Path` values are modelled
as strings, and the pydantic `Dict[str, float]` return type of
`get_alignment_stats` is modelled as an association list whose entries are
listed in the insertion order of the Python dict literal.
-/

namespace Screenscribe

/-- `WordTiming` from models.py: individual word with timing information. -/
structure WordTiming where
  word : String
  start : ℚ
  «end» : ℚ
  probability : ℚ
deriving Repr, DecidableEq

/-- `TranscriptSegment` from models.py: segment of transcript with timing. -/
structure TranscriptSegment where
  id : Int
  seek : Int
  start : ℚ
  «end» : ℚ
  text : String
  tokens : List Int
  temperature : ℚ
  avg_logprob : ℚ
  compression_ratio : ℚ
  no_speech_prob : ℚ
  words : Option (List WordTiming) := none
deriving Repr, DecidableEq

/-- `FrameData` from models.py: extracted frame with metadata.  The
`path_must_exist` validator touches the filesystem and is outside the model. -/
structure FrameData where
  index : Int
  timestamp : ℚ
  frame_path : String
  thumbnail_path : String
  is_scene_change : Bool := true
  ocr_text : Option String := none
deriving Repr, DecidableEq

/-- `AlignedContent` from models.py: frame with associated transcript segments. -/
structure AlignedContent where
  frame : FrameData
  transcript_segments : List TranscriptSegment
  time_window : ℚ := 2
deriving Repr, DecidableEq

/-- `TemporalAligner` from align.py: holds the single `time_window`
configuration parameter (default 2.0 seconds). -/
structure TemporalAligner where
  time_window : ℚ := 2
deriving Repr, DecidableEq

/-- Distance from `timestamp` to a segment, exactly the case split inside the
loop of `TemporalAligner._find_nearest_segment` (align.py lines 105-111):
`start - timestamp` when the timestamp is before the segment start,
`timestamp - end` when it is after the segment end, `0` when it lies within
the segment. -/
def segDistance (seg : TranscriptSegment) (timestamp : ℚ) : ℚ :=
  if timestamp < seg.start then seg.start - timestamp
  else if timestamp > seg.«end» then timestamp - seg.«end»
  else 0

/-- One iteration of the minimum-tracking loop in `_find_nearest_segment`
(align.py lines 103-115): the accumulator holds the current
`(min_distance, nearest_segment)` pair and is replaced only on a strictly
smaller distance (`distance < min_distance`). -/
def nearestStep (timestamp : ℚ) (acc : ℚ × TranscriptSegment)
    (seg : TranscriptSegment) : ℚ × TranscriptSegment :=
  let distance := segDistance seg timestamp
  if distance < acc.1 then (distance, seg) else acc

/-- `TemporalAligner._find_nearest_segment` (align.py lines 94-117).
The Python loop starts from `min_distance = float('inf')` and
`nearest_segment = None`; since every segment distance is finite the first
iteration always updates the pair, so the fold starts from the head segment
and its distance, and the empty list yields `None`. -/
def find_nearest_segment (segments : List TranscriptSegment) (timestamp : ℚ) :
    Option TranscriptSegment :=
  match segments with
  | [] => none
  | s :: rest =>
      some (rest.foldl (nearestStep timestamp) (segDistance s timestamp, s)).2

/-- The overlap test of align.py line 68:
`seg.end >= window_start and seg.start <= window_end`. -/
def overlapsWindow (window_start window_end : ℚ) (seg : TranscriptSegment) :
    Bool :=
  decide (seg.«end» ≥ window_start) && decide (seg.start ≤ window_end)

/-- The body of the per-frame loop of `TemporalAligner.align`
(align.py lines 57-89): compute the window bounds, filter the segments by
the overlap test (the Python append loop is a stable filter), fall back to
the nearest segment when the filtered list is empty, and build the
`AlignedContent` record. -/
def alignFrame (time_window : ℚ) (transcript_segments : List TranscriptSegment)
    (frame : FrameData) : AlignedContent :=
  let window_start := frame.timestamp - time_window
  let window_end := frame.timestamp + time_window
  let relevant_segments :=
    transcript_segments.filter (overlapsWindow window_start window_end)
  let relevant_segments :=
    if relevant_segments.isEmpty then
      match find_nearest_segment transcript_segments frame.timestamp with
      | some nearest => [nearest]
      | none => relevant_segments
    else relevant_segments
  { frame := frame, transcript_segments := relevant_segments,
    time_window := time_window }

/-- `TemporalAligner._create_empty_aligned_content` (align.py lines 119-132):
one `AlignedContent` with an empty segment list per frame. -/
def TemporalAligner.create_empty_aligned_content (self : TemporalAligner)
    (frames : List FrameData) : List AlignedContent :=
  frames.map (fun frame =>
    { frame := frame, transcript_segments := [],
      time_window := self.time_window })

/-- `TemporalAligner.align` (align.py lines 24-92).  The guard order follows
the source: empty `transcript_segments` first (empty records for every
frame), then empty `frames` (empty result), then the per-frame loop.  The
`time_index` built at lines 51-55 of the source is sorted but never read
afterwards, so it does not appear in the model. -/
def TemporalAligner.align (self : TemporalAligner)
    (transcript_segments : List TranscriptSegment)
    (frames : List FrameData) : List AlignedContent :=
  if transcript_segments.isEmpty then
    self.create_empty_aligned_content frames
  else if frames.isEmpty then
    []
  else
    frames.map (alignFrame self.time_window transcript_segments)

/-- `TemporalAligner.get_alignment_stats` (align.py lines 134-157): empty
input returns the empty mapping; otherwise the six statistics are computed
and returned in the order of the Python dict literal. -/
def TemporalAligner.get_alignment_stats (self : TemporalAligner)
    (aligned_content : List AlignedContent) : List (String × ℚ) :=
  if aligned_content.isEmpty then []
  else
    let total_frames : ℚ := aligned_content.length
    let frames_with_transcript : ℚ :=
      (aligned_content.filter
        (fun ac => !ac.transcript_segments.isEmpty)).length
    let frames_without_transcript := total_frames - frames_with_transcript
    let total_segments : ℚ :=
      (aligned_content.map (fun ac => (ac.transcript_segments.length : ℚ))).sum
    let avg_segments_per_frame :=
      if total_frames > 0 then total_segments / total_frames else 0
    let coverage_ratio :=
      if total_frames > 0 then frames_with_transcript / total_frames else 0
    [("total_frames", total_frames),
     ("frames_with_transcript", frames_with_transcript),
     ("frames_without_transcript", frames_without_transcript),
     ("coverage_ratio", coverage_ratio),
     ("avg_segments_per_frame", avg_segments_per_frame),
     ("time_window", self.time_window)]

/-- The same computation as `TemporalAligner.get_alignment_stats` but with
the two `if total_frames > 0 ... else 0` guards removed: divisions are
taken unconditionally.  Used to show the guard branches are unreachable. -/
def TemporalAligner.get_alignment_stats_unguarded (self : TemporalAligner)
    (aligned_content : List AlignedContent) : List (String × ℚ) :=
  if aligned_content.isEmpty then []
  else
    let total_frames : ℚ := aligned_content.length
    let frames_with_transcript : ℚ :=
      (aligned_content.filter
        (fun ac => !ac.transcript_segments.isEmpty)).length
    let frames_without_transcript := total_frames - frames_with_transcript
    let total_segments : ℚ :=
      (aligned_content.map (fun ac => (ac.transcript_segments.length : ℚ))).sum
    let avg_segments_per_frame := total_segments / total_frames
    let coverage_ratio := frames_with_transcript / total_frames
    [("total_frames", total_frames),
     ("frames_with_transcript", frames_with_transcript),
     ("frames_without_transcript", frames_without_transcript),
     ("coverage_ratio", coverage_ratio),
     ("avg_segments_per_frame", avg_segments_per_frame),
     ("time_window", self.time_window)]

/-- A transcript segment carrying only the timing data relevant to
alignment; all other model fields take their neutral values. -/
def testSeg (i : Int) (s e : ℚ) : TranscriptSegment :=
  { id := i, seek := 0, start := s, «end» := e, text := "", tokens := [],
    temperature := 0, avg_logprob := 0, compression_ratio := 0,
    no_speech_prob := 0 }

/-- A frame carrying only the timestamp relevant to alignment. -/
def testFrame (i : Int) (t : ℚ) : FrameData :=
  { index := i, timestamp := t, frame_path := "f.jpg",
    thumbnail_path := "t.jpg" }


theorem foldl_nearestStep_spec (ts : ℚ) :
    ∀ (rest : List TranscriptSegment) (m : ℚ) (b : TranscriptSegment),
      m = segDistance b ts →
      ∃ m' b', rest.foldl (nearestStep ts) (m, b) = (m', b') ∧
        m' = segDistance b' ts ∧
        ((b' = b ∧ m' = m ∧ ∀ t ∈ rest, m ≤ segDistance t ts) ∨
         (∃ l1 l2, rest = l1 ++ b' :: l2 ∧ m' < m ∧
           (∀ t ∈ l1, m' < segDistance t ts) ∧
           (∀ t ∈ l2, m' ≤ segDistance t ts)))
  | [], m, b, hm => ⟨m, b, rfl, hm, .inl ⟨rfl, rfl, by simp⟩⟩
  | t :: rest, m, b, hm => by
    rw [List.foldl_cons]
    by_cases hd : segDistance t ts < m
    · have hstep : nearestStep ts (m, b) t = (segDistance t ts, t) := by
        simp [nearestStep, hd]
      rw [hstep]
      obtain ⟨m', b', heq, hm', hcase⟩ :=
        foldl_nearestStep_spec ts rest (segDistance t ts) t rfl
      refine ⟨m', b', heq, hm', .inr ?_⟩
      rcases hcase with ⟨hb, hmd, hall⟩ | ⟨l1, l2, hsplit, hlt, h1, h2⟩
      · exact ⟨[], rest, by simp [hb], by rw [hmd]; exact hd, by simp,
          by simpa [hmd] using hall⟩
      · refine ⟨t :: l1, l2, by rw [hsplit, List.cons_append], lt_trans hlt hd, ?_, h2⟩
        intro u hu
        rcases List.mem_cons.mp hu with h | h
        · subst h; exact hlt
        · exact h1 u h
    · have hstep : nearestStep ts (m, b) t = (m, b) := by
        simp [nearestStep, hd]
      rw [hstep]
      obtain ⟨m', b', heq, hm', hcase⟩ := foldl_nearestStep_spec ts rest m b hm
      refine ⟨m', b', heq, hm', ?_⟩
      rcases hcase with ⟨hb, hmd, hall⟩ | ⟨l1, l2, hsplit, hlt, h1, h2⟩
      · refine .inl ⟨hb, hmd, ?_⟩
        intro u hu
        rcases List.mem_cons.mp hu with h | h
        · subst h; exact le_of_not_lt hd
        · exact hall u h
      · refine .inr ⟨t :: l1, l2, by rw [hsplit, List.cons_append], hlt, ?_, h2⟩
        intro u hu
        rcases List.mem_cons.mp hu with h | h
        · subst h; exact lt_of_lt_of_le hlt (le_of_not_lt hd)
        · exact h1 u h


theorem find?_eq_of_forall_false {α : Type} {p : α → Bool} :
    ∀ (l1 l2 : List α), (∀ x ∈ l1, p x = false) →
      (l1 ++ l2).find? p = l2.find? p
  | [], _, _ => rfl
  | x :: l1, l2, h => by
    rw [List.cons_append,
      List.find?_cons_of_neg _ (by simp [h x (List.mem_cons_self x l1)]),
      find?_eq_of_forall_false l1 l2 (fun y hy => h y (List.mem_cons_of_mem x hy))]

theorem find_nearest_segment_spec (segments : List TranscriptSegment) (ts : ℚ)
    (h : segments ≠ []) :
    ∃ s, find_nearest_segment segments ts = some s ∧ s ∈ segments ∧
      (∀ t ∈ segments, segDistance s ts ≤ segDistance t ts) ∧
      segments.find? (fun t => decide (segDistance t ts = segDistance s ts)) =
        some s := by
  cases segments with
  | nil => exact absurd rfl h
  | cons s rest =>
    obtain ⟨m', b', heq, hm', hcase⟩ :=
      foldl_nearestStep_spec ts rest (segDistance s ts) s rfl
    have hres : find_nearest_segment (s :: rest) ts = some b' := by
      simp [find_nearest_segment, heq]
    rcases hcase with ⟨hb, hmd, hall⟩ | ⟨l1, l2, hsplit, hlt, h1, h2⟩
    · rw [hb] at hres
      refine ⟨s, hres, List.mem_cons_self s rest, ?_, ?_⟩
      · intro t ht
        rcases List.mem_cons.mp ht with h | h
        · subst h; exact le_refl _
        · exact hall t h
      · exact List.find?_cons_of_pos _ (by simp)
    · subst hm'
      refine ⟨b', hres, ?_, ?_, ?_⟩
      · rw [hsplit]
        exact List.mem_cons_of_mem s (by simp)
      · intro t ht
        rcases List.mem_cons.mp ht with h | h
        · subst h; exact le_of_lt hlt
        · rw [hsplit] at h
          rcases List.mem_append.mp h with h | h
          · exact le_of_lt (h1 t h)
          · rcases List.mem_cons.mp h with h | h
            · subst h; exact le_refl _
            · exact h2 t h
      · rw [hsplit,
          List.find?_cons_of_neg _ (by simp [ne_of_gt hlt]),
          find?_eq_of_forall_false l1 (b' :: l2)
            (fun x hx => decide_eq_false (ne_of_lt (h1 x hx)).symm)]
        exact List.find?_cons_of_pos _ (by simp)


theorem align_eq_map (a : TemporalAligner)
    (segments : List TranscriptSegment) (frames : List FrameData)
    (hseg : segments ≠ []) (hfr : frames ≠ []) :
    a.align segments frames = frames.map (alignFrame a.time_window segments) := by
  cases segments with
  | nil => exact absurd rfl hseg
  | cons s ss =>
    cases frames with
    | nil => exact absurd rfl hfr
    | cons f fs => rfl

theorem flatten_map_singleton {α β : Type} (g : α → β) :
    ∀ l : List α, (l.map (fun x => [g x])).flatten = l.map g
  | [] => rfl
  | x :: l => by simp [flatten_map_singleton g l]

theorem align_nil_frames (a : TemporalAligner)
    (segments : List TranscriptSegment) : a.align segments [] = [] := by
  cases segments <;> rfl

/-- C4: `align` returns one record per frame, in frame order: the output has
the same length as `frames` and the `frame` fields, in order, are exactly
the input frames. -/
theorem align_output_matches_frames (a : TemporalAligner)
    (segments : List TranscriptSegment) (frames : List FrameData) :
    (a.align segments frames).length = frames.length ∧
    (a.align segments frames).map AlignedContent.frame = frames := by
  have hmap : (a.align segments frames).map AlignedContent.frame = frames := by
    cases segments with
    | nil =>
      have h1 : a.align [] frames = frames.map (fun f =>
          AlignedContent.mk f [] a.time_window) := rfl
      rw [h1, List.map_map]
      have hcomp : (AlignedContent.frame ∘ fun f =>
          AlignedContent.mk f [] a.time_window) = id := by
        funext x; rfl
      rw [hcomp, List.map_id]
    | cons s ss =>
      cases frames with
      | nil => rfl
      | cons f fs =>
        rw [align_eq_map a (s :: ss) (f :: fs) (by simp) (by simp), List.map_map]
        have hcomp : (AlignedContent.frame ∘ alignFrame a.time_window (s :: ss)) = id := by
          funext x; rfl
        rw [hcomp, List.map_id]
  refine ⟨?_, hmap⟩
  calc (a.align segments frames).length
      = ((a.align segments frames).map AlignedContent.frame).length :=
        (List.length_map _ _).symm
    _ = frames.length := by rw [hmap]

/-- C5: with an empty frame list, `align` returns the empty list whatever the
segment list is. -/
theorem align_empty_frames (a : TemporalAligner)
    (segments : List TranscriptSegment) : a.align segments [] = [] :=
  align_nil_frames a segments

/-- C6: with an empty segment list and a non-empty frame list, `align`
returns one record per frame with empty `transcript_segments`, produced by
`_create_empty_aligned_content` alone (no nearest-neighbor search). -/
theorem align_empty_segments (a : TemporalAligner) (frames : List FrameData)
    (hfr : frames ≠ []) :
    a.align [] frames = a.create_empty_aligned_content frames ∧
    ∀ ac ∈ a.align [] frames, ac.transcript_segments = [] := by
  refine ⟨rfl, ?_⟩
  intro ac hac
  rw [show a.align [] frames = a.create_empty_aligned_content frames from rfl]
    at hac
  obtain ⟨f, _, rfl⟩ := List.mem_map.mp hac
  rfl

theorem align_empty_segments_witness :
    ([testFrame 0 0] : List FrameData) ≠ [] ∧
    ((TemporalAligner.mk 2).align [] [testFrame 0 0] =
        (TemporalAligner.mk 2).create_empty_aligned_content [testFrame 0 0] ∧
      ∀ ac ∈ (TemporalAligner.mk 2).align [] [testFrame 0 0],
        ac.transcript_segments = []) :=
  ⟨by decide,
    align_empty_segments (TemporalAligner.mk 2) [testFrame 0 0] (by decide)⟩

/-- C8: `get_alignment_stats` on the empty list returns the empty mapping,
not a mapping of zero-valued metrics. -/
theorem get_alignment_stats_empty (a : TemporalAligner) :
    a.get_alignment_stats [] = [] := rfl

/-- C9: per-frame independence: `align` over a frame list equals the
concatenation, in frame order, of `align` applied to each single frame. -/
theorem align_per_frame_decomposition (a : TemporalAligner)
    (segments : List TranscriptSegment) (frames : List FrameData) :
    a.align segments frames =
      (frames.map (fun f => a.align segments [f])).flatten := by
  cases segments with
  | nil =>
    have h2 : ∀ f : FrameData, a.align [] [f] =
        [AlignedContent.mk f [] a.time_window] := fun f => rfl
    simp only [h2]
    rw [flatten_map_singleton (fun f => AlignedContent.mk f [] a.time_window)
      frames]
    rfl
  | cons s ss =>
    cases frames with
    | nil => rfl
    | cons f fs =>
      rw [align_eq_map a (s :: ss) (f :: fs) (by simp) (by simp)]
      have h2 : ∀ x : FrameData, a.align (s :: ss) [x] =
          [alignFrame a.time_window (s :: ss) x] := fun x => rfl
      simp only [h2]
      rw [flatten_map_singleton]


/-- C7: on a non-empty record list, `get_alignment_stats` returns exactly the
six keys `total_frames`, `frames_with_transcript`,
`frames_without_transcript`, `coverage_ratio`, `avg_segments_per_frame`
and `time_window`, with the values the claim prescribes. -/
theorem get_alignment_stats_nonempty (a : TemporalAligner)
    (l : List AlignedContent) (h : l ≠ []) :
    a.get_alignment_stats l =
      [("total_frames", (l.length : ℚ)),
       ("frames_with_transcript",
         (l.countP (fun ac => !ac.transcript_segments.isEmpty) : ℚ)),
       ("frames_without_transcript",
         (l.length : ℚ) -
           (l.countP (fun ac => !ac.transcript_segments.isEmpty) : ℚ)),
       ("coverage_ratio",
         (l.countP (fun ac => !ac.transcript_segments.isEmpty) : ℚ) /
           (l.length : ℚ)),
       ("avg_segments_per_frame",
         (l.map (fun ac => (ac.transcript_segments.length : ℚ))).sum /
           (l.length : ℚ)),
       ("time_window", a.time_window)] := by
  have hlen : (0 : ℚ) < (l.length : ℚ) := by
    exact_mod_cast List.length_pos.mpr h
  have hne : l.isEmpty = false := by simp [h]
  simp [TemporalAligner.get_alignment_stats, hne, hlen,
    List.countP_eq_length_filter]

theorem get_alignment_stats_nonempty_witness :
    ([AlignedContent.mk (testFrame 0 0) [testSeg 0 0 1] 2,
      AlignedContent.mk (testFrame 1 3) [] 2] : List AlignedContent) ≠ [] ∧
    (TemporalAligner.mk 2).get_alignment_stats
        [AlignedContent.mk (testFrame 0 0) [testSeg 0 0 1] 2,
         AlignedContent.mk (testFrame 1 3) [] 2] =
      [("total_frames", ((2 : Nat) : ℚ)),
       ("frames_with_transcript", ((1 : Nat) : ℚ)),
       ("frames_without_transcript", ((2 : Nat) : ℚ) - ((1 : Nat) : ℚ)),
       ("coverage_ratio", ((1 : Nat) : ℚ) / ((2 : Nat) : ℚ)),
       ("avg_segments_per_frame", (((1 : Nat) : ℚ) + (((0 : Nat) : ℚ) + 0)) / ((2 : Nat) : ℚ)),
       ("time_window", 2)] := by
  constructor
  · decide
  · have := get_alignment_stats_nonempty (TemporalAligner.mk 2)
      [AlignedContent.mk (testFrame 0 0) [testSeg 0 0 1] 2,
       AlignedContent.mk (testFrame 1 3) [] 2] (by decide)
    simpa using this

/-- C10: the `else 0` guards at the two division sites of
`get_alignment_stats` are unreachable: after the early return on empty
input, `total_frames` is at least 1, and removing the guards does not
change the function's value on any non-empty input. -/
theorem get_alignment_stats_guards_unreachable (a : TemporalAligner)
    (l : List AlignedContent) (h : l ≠ []) :
    1 ≤ (l.length : ℚ) ∧
    a.get_alignment_stats l = a.get_alignment_stats_unguarded l := by
  have hpos : 0 < l.length := List.length_pos.mpr h
  have hlen : (0 : ℚ) < (l.length : ℚ) := by exact_mod_cast hpos
  have hne : l.isEmpty = false := by simp [h]
  constructor
  · exact_mod_cast hpos
  · simp [TemporalAligner.get_alignment_stats,
      TemporalAligner.get_alignment_stats_unguarded, hne, hlen]

theorem get_alignment_stats_guards_unreachable_witness :
    ([AlignedContent.mk (testFrame 0 0) [] 2] : List AlignedContent) ≠ [] ∧
    (1 ≤ (([AlignedContent.mk (testFrame 0 0) [] 2] :
        List AlignedContent).length : ℚ) ∧
      (TemporalAligner.mk 2).get_alignment_stats
          [AlignedContent.mk (testFrame 0 0) [] 2] =
        (TemporalAligner.mk 2).get_alignment_stats_unguarded
          [AlignedContent.mk (testFrame 0 0) [] 2]) :=
  ⟨by decide,
    get_alignment_stats_guards_unreachable (TemporalAligner.mk 2)
      [AlignedContent.mk (testFrame 0 0) [] 2] (by decide)⟩


theorem align_getElem (a : TemporalAligner)
    (segments : List TranscriptSegment) (frames : List FrameData)
    (hseg : segments ≠ []) (i : Nat) (f : FrameData)
    (hf : frames[i]? = some f) :
    (a.align segments frames)[i]? =
      some (alignFrame a.time_window segments f) := by
  have hfr : frames ≠ [] := by
    intro hcontra
    rw [hcontra] at hf
    simp at hf
  rw [align_eq_map a segments frames hseg hfr, List.getElem?_map, hf]
  rfl

theorem alignFrame_of_filter_ne_nil (w : ℚ)
    (segs : List TranscriptSegment) (f : FrameData)
    (hne : segs.filter (overlapsWindow (f.timestamp - w) (f.timestamp + w)) ≠ []) :
    alignFrame w segs f =
      AlignedContent.mk f
        (segs.filter (overlapsWindow (f.timestamp - w) (f.timestamp + w))) w := by
  simp only [alignFrame]
  rw [if_neg (by simp [hne])]

theorem alignFrame_of_filter_eq_nil (w : ℚ)
    (segs : List TranscriptSegment) (f : FrameData) (s : TranscriptSegment)
    (hnil : segs.filter (overlapsWindow (f.timestamp - w) (f.timestamp + w)) = [])
    (hfind : find_nearest_segment segs f.timestamp = some s) :
    alignFrame w segs f = AlignedContent.mk f [s] w := by
  simp only [alignFrame]
  rw [if_pos (by simp [hnil]), hfind]


/-- C1: for a frame of `frames` with at least one segment satisfying the
overlap predicate `seg.end >= timestamp - time_window AND
seg.start <= timestamp + time_window`, the output record at that frame's
index carries exactly the stable filter of `segments` by that predicate. -/
theorem align_window_filter (a : TemporalAligner)
    (segments : List TranscriptSegment) (frames : List FrameData)
    (hseg : segments ≠ []) (i : Nat) (f : FrameData)
    (hf : frames[i]? = some f)
    (hov : ∃ seg ∈ segments,
      seg.«end» ≥ f.timestamp - a.time_window ∧
      seg.start ≤ f.timestamp + a.time_window) :
    (a.align segments frames)[i]? =
      some (AlignedContent.mk f
        (segments.filter
          (overlapsWindow (f.timestamp - a.time_window)
            (f.timestamp + a.time_window)))
        a.time_window) := by
  have hfilter : segments.filter
      (overlapsWindow (f.timestamp - a.time_window)
        (f.timestamp + a.time_window)) ≠ [] := by
    obtain ⟨seg, hmem, h1, h2⟩ := hov
    intro hcontra
    have hin : seg ∈ segments.filter
        (overlapsWindow (f.timestamp - a.time_window)
          (f.timestamp + a.time_window)) :=
      List.mem_filter.mpr ⟨hmem, by simp [overlapsWindow, h1, h2]⟩
    rw [hcontra] at hin
    exact absurd hin (List.not_mem_nil seg)
  rw [align_getElem a segments frames hseg i f hf,
    alignFrame_of_filter_ne_nil a.time_window segments f hfilter]

theorem align_window_filter_witness :
    (([testSeg 0 2 4] : List TranscriptSegment) ≠ [] ∧
      ([testFrame 0 (11/2)] : List FrameData)[0]? = some (testFrame 0 (11/2)) ∧
      ∃ seg ∈ ([testSeg 0 2 4] : List TranscriptSegment),
        seg.«end» ≥ (testFrame 0 (11/2)).timestamp -
          (TemporalAligner.mk 2).time_window ∧
        seg.start ≤ (testFrame 0 (11/2)).timestamp +
          (TemporalAligner.mk 2).time_window) ∧
    ((TemporalAligner.mk 2).align [testSeg 0 2 4] [testFrame 0 (11/2)])[0]? =
      some (AlignedContent.mk (testFrame 0 (11/2))
        (([testSeg 0 2 4] : List TranscriptSegment).filter
          (overlapsWindow
            ((testFrame 0 (11/2)).timestamp - (TemporalAligner.mk 2).time_window)
            ((testFrame 0 (11/2)).timestamp +
              (TemporalAligner.mk 2).time_window)))
        (TemporalAligner.mk 2).time_window) :=
  ⟨⟨by decide, rfl, by norm_num [testSeg, testFrame]⟩,
    align_window_filter (TemporalAligner.mk 2) [testSeg 0 2 4]
      [testFrame 0 (11/2)] (by decide) 0 (testFrame 0 (11/2)) rfl
      (by norm_num [testSeg, testFrame])⟩

/-- C3: on a non-empty segment list, `_find_nearest_segment` returns a
segment of minimum distance to the timestamp, and among all segments
achieving that minimum it is the one appearing earliest in the input order
(strict less-than comparison: first segment encountered wins ties). -/
theorem find_nearest_first_minimum (segments : List TranscriptSegment)
    (ts : ℚ) (h : segments ≠ []) :
    ∃ s, find_nearest_segment segments ts = some s ∧
      (∀ t ∈ segments, segDistance s ts ≤ segDistance t ts) ∧
      segments.find? (fun t => decide (segDistance t ts = segDistance s ts)) =
        some s := by
  obtain ⟨s, h1, _, h3, h4⟩ := find_nearest_segment_spec segments ts h
  exact ⟨s, h1, h3, h4⟩

theorem find_nearest_first_minimum_witness :
    (([testSeg 0 0 10, testSeg 1 5 15] : List TranscriptSegment) ≠ []) ∧
    (∃ s, find_nearest_segment [testSeg 0 0 10, testSeg 1 5 15] 7 = some s ∧
      (∀ t ∈ ([testSeg 0 0 10, testSeg 1 5 15] : List TranscriptSegment),
        segDistance s 7 ≤ segDistance t 7) ∧
      ([testSeg 0 0 10, testSeg 1 5 15] : List TranscriptSegment).find?
          (fun t => decide (segDistance t 7 = segDistance s 7)) = some s) :=
  ⟨by decide,
    find_nearest_first_minimum [testSeg 0 0 10, testSeg 1 5 15] 7 (by decide)⟩


/-- C2: when no segment overlaps a frame's window (and `segments` is
non-empty), the frame's record carries a one-element list holding a segment
of minimal `segDistance` to the frame timestamp; the distance is `0` inside
`[start, end]`, `start - timestamp` before the segment and
`timestamp - end` after it; consequently every output record has a
non-empty `transcript_segments` whenever `segments` is non-empty. -/
theorem align_nearest_fallback (a : TemporalAligner)
    (segments : List TranscriptSegment) (frames : List FrameData)
    (hseg : segments ≠ []) :
    (∀ (i : Nat) (f : FrameData), frames[i]? = some f →
      segments.filter (overlapsWindow (f.timestamp - a.time_window)
        (f.timestamp + a.time_window)) = [] →
      ∃ s, s ∈ segments ∧
        (∀ t ∈ segments,
          segDistance s f.timestamp ≤ segDistance t f.timestamp) ∧
        (a.align segments frames)[i]? =
          some (AlignedContent.mk f [s] a.time_window)) ∧
    (∀ (seg : TranscriptSegment) (ts : ℚ),
      (ts < seg.start → segDistance seg ts = seg.start - ts) ∧
      (seg.start ≤ ts → ts ≤ seg.«end» → segDistance seg ts = 0) ∧
      (seg.start ≤ ts → seg.«end» < ts → segDistance seg ts = ts - seg.«end»)) ∧
    (∀ ac ∈ a.align segments frames, ac.transcript_segments ≠ []) := by
  refine ⟨?_, ?_, ?_⟩
  · intro i f hf hnil
    obtain ⟨s, hfind, hmem, hmin, _⟩ :=
      find_nearest_segment_spec segments f.timestamp hseg
    refine ⟨s, hmem, hmin, ?_⟩
    rw [align_getElem a segments frames hseg i f hf,
      alignFrame_of_filter_eq_nil a.time_window segments f s hnil hfind]
  · intro seg ts
    refine ⟨?_, ?_, ?_⟩
    · intro h1
      simp [segDistance, h1]
    · intro h1 h2
      simp [segDistance, not_lt.mpr h1, not_lt.mpr h2]
    · intro h1 h2
      simp [segDistance, not_lt.mpr h1, h2]
  · intro ac hac
    cases frames with
    | nil =>
      rw [align_nil_frames] at hac
      exact absurd hac (List.not_mem_nil ac)
    | cons f fs =>
      rw [align_eq_map a segments (f :: fs) hseg (by simp)] at hac
      obtain ⟨x, _, rfl⟩ := List.mem_map.mp hac
      by_cases hnil : segments.filter
          (overlapsWindow (x.timestamp - a.time_window)
            (x.timestamp + a.time_window)) = []
      · obtain ⟨s, hfind, _, _, _⟩ :=
          find_nearest_segment_spec segments x.timestamp hseg
        rw [alignFrame_of_filter_eq_nil a.time_window segments x s hnil hfind]
        simp
      · rw [alignFrame_of_filter_ne_nil a.time_window segments x hnil]
        simpa using hnil

theorem align_nearest_fallback_witness :
    (([testSeg 0 0 5, testSeg 1 20 25] : List TranscriptSegment) ≠ []) ∧
    ((∀ (i : Nat) (f : FrameData),
        ([testFrame 0 12] : List FrameData)[i]? = some f →
        ([testSeg 0 0 5, testSeg 1 20 25] : List TranscriptSegment).filter
          (overlapsWindow (f.timestamp - (TemporalAligner.mk 2).time_window)
            (f.timestamp + (TemporalAligner.mk 2).time_window)) = [] →
        ∃ s, s ∈ ([testSeg 0 0 5, testSeg 1 20 25] : List TranscriptSegment) ∧
          (∀ t ∈ ([testSeg 0 0 5, testSeg 1 20 25] : List TranscriptSegment),
            segDistance s f.timestamp ≤ segDistance t f.timestamp) ∧
          ((TemporalAligner.mk 2).align [testSeg 0 0 5, testSeg 1 20 25]
              [testFrame 0 12])[i]? =
            some (AlignedContent.mk f [s] (TemporalAligner.mk 2).time_window)) ∧
      (∀ (seg : TranscriptSegment) (ts : ℚ),
        (ts < seg.start → segDistance seg ts = seg.start - ts) ∧
        (seg.start ≤ ts → ts ≤ seg.«end» → segDistance seg ts = 0) ∧
        (seg.start ≤ ts → seg.«end» < ts →
          segDistance seg ts = ts - seg.«end»)) ∧
      (∀ ac ∈ (TemporalAligner.mk 2).align [testSeg 0 0 5, testSeg 1 20 25]
          [testFrame 0 12], ac.transcript_segments ≠ [])) :=
  ⟨by decide,
    align_nearest_fallback (TemporalAligner.mk 2)
      [testSeg 0 0 5, testSeg 1 20 25] [testFrame 0 12] (by decide)⟩

end Screenscribe
